import Mathlib

/-!
Verification of `src/ResNet152.py` (Agriculture-Robot repository).

The script is a flat PyTorch training program: a ResNet-152 model, a Cutout
augmentation, a custom learning-rate scheduler class
`CosineAnnealingWarmupRestarts`, an initial 70-epoch training loop with
best-accuracy checkpointing, and a 15-epoch fine-tuning loop with its own
optimizer/scheduler and its own checkpoint file.

The embedding below models:
 * the scheduler state and its `step`/`get_lr` behaviour (floats as `ℝ`,
   stored hyperparameters as `ℚ`/`ℕ`);
 * the Cutout transform on an abstract image (pixels as `ℚ`);
 * the two training phases as state machines over an abstract parameter
   type `P`, with the training passes and the validation accuracy supplied
   by oracles (the numeric content of SGD is external library code), and an
   explicit event trace recording execution order.
-/

set_option maxRecDepth 40000

namespace ResNet152

/-! ## Scheduler: `CosineAnnealingWarmupRestarts`

The Python class stores `T_0, T_mult, base_eta_max, eta_max, T_up, gamma,
cycle, T_i` and inherits `last_epoch` and `base_lrs` from
`optim.lr_scheduler._LRScheduler`.  It overrides `get_lr` only; `step` is
inherited, and the inherited `step` increments `last_epoch` and writes
`get_lr()` into the optimizer's parameter groups — it touches none of the
subclass fields. -/

structure SchedState where
  T_0 : ℕ
  T_mult : ℕ
  base_eta_max : ℚ
  eta_max : ℚ
  T_up : ℕ
  gamma : ℚ
  cycle : ℕ
  T_i : ℕ
  base_lrs : List ℚ
  last_epoch : ℕ
deriving DecidableEq

/-- Constructor: `__init__` stores the hyperparameters, sets `cycle = 0`
and `T_i = T_0`, and the base-class `__init__` records `base_lrs` from the
optimizer's initial learning rates and performs one initial `step`, leaving
`last_epoch = 0`. -/
def mkSched (T_0 T_mult : ℕ) (eta_max : ℚ) (T_up : ℕ) (gamma : ℚ)
    (base_lrs : List ℚ) : SchedState :=
  { T_0 := T_0, T_mult := T_mult, base_eta_max := eta_max, eta_max := eta_max,
    T_up := T_up, gamma := gamma, cycle := 0, T_i := T_0,
    base_lrs := base_lrs, last_epoch := 0 }

/-- The effect of `scheduler.step()`: the subclass does not override `step`, so the
inherited `_LRScheduler.step` runs: it increments `last_epoch` and assigns
`get_lr()` to the optimizer's parameter groups.  No other field changes. -/
def schedStep (s : SchedState) : SchedState :=
  { s with last_epoch := s.last_epoch + 1 }

/-- Result of `n` consecutive calls of `scheduler.step()`. -/
def stepN : ℕ → SchedState → SchedState
  | 0, s => s
  | n + 1, s => schedStep (stepN n s)

/-- The method `get_lr`: warmup branch when `last_epoch < T_up`, cosine branch
otherwise, one value per entry of `base_lrs`.  Python float arithmetic is
modelled over `ℝ`. -/
noncomputable def getLr (s : SchedState) : List ℝ :=
  if s.last_epoch < s.T_up then
    s.base_lrs.map (fun b =>
      (b : ℝ) + ((s.eta_max : ℝ) - (b : ℝ)) * (s.last_epoch : ℝ) / (s.T_up : ℝ))
  else
    s.base_lrs.map (fun b =>
      (b : ℝ) + 0.5 * ((s.eta_max : ℝ) - (b : ℝ)) *
        (1 + Real.cos (Real.pi *
          (((s.last_epoch : ℝ) - (s.T_up : ℝ)) / ((s.T_i : ℝ) - (s.T_up : ℝ))))))

/-- The initial-phase scheduler of the script:
`CosineAnnealingWarmupRestarts(optimizer, T_0=60, T_mult=1, eta_max=0.001,
T_up=10, gamma=0.5)` over an optimizer with `lr=0.001`. -/
def scheduler : SchedState := mkSched 60 1 0.001 10 0.5 [0.001]

/-- The fine-tuning scheduler of the script:
`CosineAnnealingWarmupRestarts(finetune_optimizer, T_0=30, T_mult=1,
eta_max=0.0001, T_up=5, gamma=0.5)` over an optimizer with `lr=0.0001`. -/
def finetune_scheduler : SchedState := mkSched 30 1 0.0001 5 0.5 [0.0001]

theorem stepN_eq (n : ℕ) (s : SchedState) :
    stepN n s = { s with last_epoch := s.last_epoch + n } := by
  induction n with
  | zero => rfl
  | succ n ih => simp [stepN, ih, schedStep]; ring

/-- C3 counterexample: after 61 steps of the script's scheduler (one full
cycle of length `T_0 = 60` has completed and a new one has begun), the
cycle counter is still `0`, the cycle length `T_i` is still `60`, and the
peak rate `eta_max` is still `0.001` — no restart bookkeeping ever runs,
even though `last_epoch = 61` is past the end of the first cycle. -/
theorem scheduler_no_restart_at_61 :
    (stepN 61 scheduler).cycle = 0 ∧
    (stepN 61 scheduler).T_i = 60 ∧
    (stepN 61 scheduler).eta_max = 0.001 ∧
    (stepN 61 scheduler).last_epoch = 61 := by
  rw [stepN_eq]
  exact ⟨rfl, rfl, rfl, rfl⟩

/-- C3 (amended): the scheduler never restarts.  Stepping any number of
times only advances `last_epoch`; `cycle`, `T_i`, `eta_max`, `gamma` and
`base_lrs` keep their initial values, so past the first cycle `get_lr`
keeps evaluating the same cosine expression with `cos_inner` growing
beyond `1` instead of starting a new cycle. -/
theorem scheduler_never_restarts (s : SchedState) (n : ℕ) :
    (stepN n s).cycle = s.cycle ∧
    (stepN n s).T_i = s.T_i ∧
    (stepN n s).eta_max = s.eta_max ∧
    (stepN n s).gamma = s.gamma ∧
    (stepN n s).base_lrs = s.base_lrs ∧
    (stepN n s).last_epoch = s.last_epoch + n := by
  rw [stepN_eq]
  exact ⟨rfl, rfl, rfl, rfl, rfl, rfl⟩

/-- If every base learning rate equals `eta_max`, both branches of
`get_lr` collapse to `eta_max`. -/
theorem getLr_const (s : SchedState) (b : ℚ) (hb : s.base_lrs = [b])
    (he : s.eta_max = b) : getLr s = [(b : ℝ)] := by
  unfold getLr
  rw [hb, he]
  split <;> simp

/-- C9: with the script's constants the schedule is constant.  Each
optimizer's initial learning rate equals its scheduler's `eta_max`
(`0.001` initially, `0.0001` for fine-tuning), so `base_lr = eta_max` and
`get_lr` returns the same single rate at every epoch index, in both
phases. -/
theorem schedule_is_constant (e : ℕ) :
    getLr (stepN e scheduler) = [((0.001 : ℚ) : ℝ)] ∧
    getLr (stepN e finetune_scheduler) = [((0.0001 : ℚ) : ℝ)] := by
  constructor
  · exact getLr_const _ _ (by rw [stepN_eq]; rfl) (by rw [stepN_eq]; rfl)
  · exact getLr_const _ _ (by rw [stepN_eq]; rfl) (by rw [stepN_eq]; rfl)

/-! ### C2: shape of the schedule during the first cycle -/

/-- The learning rates a first-cycle scheduler with one base rate `b`,
peak `em`, cycle length `T0` and warmup length `Tup` returns after `e`
steps. -/
noncomputable def lrAfter (b em : ℚ) (T0 Tup e : ℕ) : List ℝ :=
  getLr (stepN e (mkSched T0 1 em Tup 0.5 [b]))

theorem lrAfter_lt (b em : ℚ) (T0 Tup e : ℕ) (he : e < Tup) :
    lrAfter b em T0 Tup e =
      [(b : ℝ) + ((em : ℝ) - (b : ℝ)) * (e : ℝ) / (Tup : ℝ)] := by
  unfold lrAfter getLr
  rw [stepN_eq]
  simp [mkSched, he]

theorem lrAfter_ge (b em : ℚ) (T0 Tup e : ℕ) (he : Tup ≤ e) :
    lrAfter b em T0 Tup e =
      [(b : ℝ) + 0.5 * ((em : ℝ) - (b : ℝ)) *
        (1 + Real.cos (Real.pi *
          (((e : ℝ) - (Tup : ℝ)) / ((T0 : ℝ) - (Tup : ℝ)))))] := by
  unfold lrAfter getLr
  rw [stepN_eq]
  simp [mkSched, Nat.not_lt.mpr he]

theorem lrAfter_at_Tup (b em : ℚ) (T0 Tup : ℕ) :
    lrAfter b em T0 Tup Tup = [(em : ℝ)] := by
  rw [lrAfter_ge b em T0 Tup Tup le_rfl]
  simp
  ring

theorem lrAfter_at_T0 (b em : ℚ) (T0 Tup : ℕ) (hT : Tup < T0) :
    lrAfter b em T0 Tup T0 = [(b : ℝ)] := by
  rw [lrAfter_ge b em T0 Tup T0 (le_of_lt hT)]
  have hd : (T0 : ℝ) - (Tup : ℝ) ≠ 0 := by
    have h : (Tup : ℝ) < (T0 : ℝ) := by exact_mod_cast hT
    linarith
  rw [div_self hd, mul_one, Real.cos_pi]
  norm_num

theorem lrAfter_antitone (b em : ℚ) (T0 Tup : ℕ) (hT : Tup < T0)
    (hb : b ≤ em) (e1 e2 : ℕ) (h1 : Tup ≤ e1) (h12 : e1 ≤ e2) (h2 : e2 ≤ T0) :
    (lrAfter b em T0 Tup e2).headI ≤ (lrAfter b em T0 Tup e1).headI := by
  rw [lrAfter_ge b em T0 Tup e1 h1, lrAfter_ge b em T0 Tup e2 (h1.trans h12)]
  simp only [List.headI]
  have hd : (0 : ℝ) < (T0 : ℝ) - (Tup : ℝ) := by
    have h : (Tup : ℝ) < (T0 : ℝ) := by exact_mod_cast hT
    linarith
  have he1 : (Tup : ℝ) ≤ (e1 : ℝ) := by exact_mod_cast h1
  have he12 : (e1 : ℝ) ≤ (e2 : ℝ) := by exact_mod_cast h12
  have he2 : (e2 : ℝ) ≤ (T0 : ℝ) := by exact_mod_cast h2
  have hx1 : (0 : ℝ) ≤ Real.pi * (((e1 : ℝ) - Tup) / ((T0 : ℝ) - Tup)) := by
    apply mul_nonneg Real.pi_pos.le
    apply div_nonneg (by linarith) hd.le
  have hx2 : Real.pi * (((e2 : ℝ) - Tup) / ((T0 : ℝ) - Tup)) ≤ Real.pi := by
    have hle : ((e2 : ℝ) - Tup) / ((T0 : ℝ) - Tup) ≤ 1 := by
      rw [div_le_one hd]; linarith
    calc Real.pi * (((e2 : ℝ) - Tup) / ((T0 : ℝ) - Tup))
        ≤ Real.pi * 1 := mul_le_mul_of_nonneg_left hle Real.pi_pos.le
      _ = Real.pi := mul_one _
  have hxx : Real.pi * (((e1 : ℝ) - Tup) / ((T0 : ℝ) - Tup)) ≤
      Real.pi * (((e2 : ℝ) - Tup) / ((T0 : ℝ) - Tup)) := by
    apply mul_le_mul_of_nonneg_left _ Real.pi_pos.le
    exact (div_le_div_iff_of_pos_right hd).mpr (by linarith)
  have hcos := Real.cos_le_cos_of_nonneg_of_le_pi hx1 hx2 hxx
  have hC : (0 : ℝ) ≤ 0.5 * ((em : ℝ) - (b : ℝ)) := by
    have h : (b : ℝ) ≤ (em : ℝ) := by exact_mod_cast hb
    nlinarith
  have hmul := mul_le_mul_of_nonneg_left (add_le_add_left hcos 1) hC
  linarith

/-- C2: during the first cycle the schedule is linear warmup followed by
cosine decay to the floor `b`.  For `e < T_up` the returned rate is
`b + (em - b) * e / T_up`; for `T_up ≤ e ≤ T_0` it is
`b + 0.5 * (em - b) * (1 + cos (π * (e - T_up) / (T_0 - T_up)))`, which for
`b ≤ em` is non-increasing in `e`, equals `em` at `e = T_up` and equals
`b` at `e = T_0`. -/
theorem warmup_cosine_schedule (b em : ℚ) (T0 Tup : ℕ)
    (hT : Tup < T0) (hb : b ≤ em) :
    (∀ e, e < Tup → lrAfter b em T0 Tup e =
      [(b : ℝ) + ((em : ℝ) - (b : ℝ)) * (e : ℝ) / (Tup : ℝ)]) ∧
    (∀ e, Tup ≤ e → e ≤ T0 → lrAfter b em T0 Tup e =
      [(b : ℝ) + 0.5 * ((em : ℝ) - (b : ℝ)) *
        (1 + Real.cos (Real.pi *
          (((e : ℝ) - (Tup : ℝ)) / ((T0 : ℝ) - (Tup : ℝ)))))]) ∧
    lrAfter b em T0 Tup Tup = [(em : ℝ)] ∧
    lrAfter b em T0 Tup T0 = [(b : ℝ)] ∧
    (∀ e1 e2, Tup ≤ e1 → e1 ≤ e2 → e2 ≤ T0 →
      (lrAfter b em T0 Tup e2).headI ≤ (lrAfter b em T0 Tup e1).headI) :=
  ⟨fun e he => lrAfter_lt b em T0 Tup e he,
   fun e h1 _ => lrAfter_ge b em T0 Tup e h1,
   lrAfter_at_Tup b em T0 Tup,
   lrAfter_at_T0 b em T0 Tup hT,
   fun e1 e2 h1 h12 h2 => lrAfter_antitone b em T0 Tup hT hb e1 e2 h1 h12 h2⟩

/-- Witness for C2 at `b = 0`, `em = 1`, `T_0 = 60`, `T_up = 10`:
the peak value is attained at the end of warmup. -/
theorem warmup_cosine_schedule_witness :
    (10 : ℕ) < 60 ∧ (0 : ℚ) ≤ 1 ∧ lrAfter 0 1 60 10 10 = [((1 : ℚ) : ℝ)] :=
  ⟨by decide, by decide,
   (warmup_cosine_schedule 0 1 60 10 (by decide) (by decide)).2.2.1⟩

/-! ## Cutout augmentation

`Cutout.__call__` reads `h, w` from the image, draws a center
`y = randint(h)`, `x = randint(w)` (so `0 ≤ y < h`, `0 ≤ x < w`), builds a
mask of ones, zeroes the slice `mask[y1:y2, x1:x2]` with
`y1 = max(0, y - length // 2)`, `y2 = min(h, y + length // 2)` (and the
same for `x`), and multiplies the mask into every channel.  The drawn
center is a parameter of the embedding; pixel values are modelled as `ℚ`. -/

/-- An image tensor of shape `(C, h, w)`: channel count, height, width and
the pixel entries. -/
structure Image where
  C : ℕ
  h : ℕ
  w : ℕ
  pix : ℕ → ℕ → ℕ → ℚ

/-- The lower slice bound `max(0, center - length // 2)`. -/
def cutLo (length center : ℕ) : ℤ :=
  max 0 ((center : ℤ) - (length : ℤ) / 2)

/-- The upper slice bound `min(extent, center + length // 2)`. -/
def cutHi (length center extent : ℕ) : ℤ :=
  min (extent : ℤ) ((center : ℤ) + (length : ℤ) / 2)

/-- Row `i`, column `j` lies in the slice `mask[y1:y2, x1:x2]` that
`Cutout.__call__` sets to `0`. -/
def inCutRegion (length y x h w i j : ℕ) : Prop :=
  cutLo length y ≤ (i : ℤ) ∧ (i : ℤ) < cutHi length y h ∧
  cutLo length x ≤ (j : ℤ) ∧ (j : ℤ) < cutHi length x w

instance (length y x h w i j : ℕ) :
    Decidable (inCutRegion length y x h w i j) :=
  inferInstanceAs (Decidable
    (cutLo length y ≤ (i : ℤ) ∧ (i : ℤ) < cutHi length y h ∧
     cutLo length x ≤ (j : ℤ) ∧ (j : ℤ) < cutHi length x w))

/-- The transform `Cutout.__call__` with side parameter `length` and sampled center
`(y, x)`: the zeroed-slice mask is broadcast-multiplied into every
channel of the image. -/
def cutout (length y x : ℕ) (img : Image) : Image :=
  { C := img.C, h := img.h, w := img.w,
    pix := fun c i j =>
      img.pix c i j *
        (if inCutRegion length y x img.h img.w i j then 0 else 1) }

/-- A constant all-ones image of shape `(3, 32, 32)` (the CIFAR-10 shape
the script feeds to `Cutout`). -/
def imgOnes : Image := ⟨3, 32, 32, fun _ _ _ => 1⟩

/-- C4 counterexample: with the script's `length = 16` on a `32 × 32`
image and sampled center `(0, 0)` (a possible draw of `torch.randint`),
the zeroed region is `[0,8) × [0,8)`: its side is `8`, not `16`, and the
pixel at `(8,8)` is untouched — the zeroed region is not a square of side
`length`. -/
theorem cutout_clipped_square :
    cutHi 16 0 32 - cutLo 16 0 = 8 ∧
    ¬(cutHi 16 0 32 - cutLo 16 0 = 16) ∧
    (cutout 16 0 0 imgOnes).pix 0 7 7 = 0 ∧
    (cutout 16 0 0 imgOnes).pix 0 8 8 = 1 := by
  refine ⟨by decide, by decide, ?_, ?_⟩
  · have h : inCutRegion 16 0 0 32 32 7 7 := by decide
    simp [cutout, imgOnes, h]
  · have h : ¬ inCutRegion 16 0 0 32 32 8 8 := by decide
    simp [cutout, imgOnes, h]

/-- C4 (amended): Cutout zeroes exactly the clipped window
`[max(0, y - l/2), min(h, y + l/2)) × [max(0, x - l/2), min(w, x + l/2))`
in every channel; each side of that window is at most `2 * (l / 2) ≤ l`,
so near an image border (or for odd `l`) the zeroed region is a smaller
rectangle rather than a square of side exactly `l`. -/
theorem cutout_zeroes_region (l y x : ℕ) (img : Image) (c i j : ℕ)
    (hin : inCutRegion l y x img.h img.w i j) :
    (cutout l y x img).pix c i j = 0 ∧
    cutHi l y img.h - cutLo l y ≤ (l : ℤ) ∧
    cutHi l x img.w - cutLo l x ≤ (l : ℤ) := by
  refine ⟨by simp [cutout, hin], ?_, ?_⟩ <;>
    (unfold cutHi cutLo; omega)

/-- Witness for C4 (amended) at `l = 16`, center `(16, 16)`, pixel
`(0, 10, 10)` of the all-ones image. -/
theorem cutout_zeroes_region_witness :
    inCutRegion 16 16 16 32 32 10 10 ∧
    ((cutout 16 16 16 imgOnes).pix 0 10 10 = 0 ∧
     cutHi 16 16 32 - cutLo 16 16 ≤ (16 : ℤ) ∧
     cutHi 16 16 32 - cutLo 16 16 ≤ (16 : ℤ)) :=
  ⟨by decide, cutout_zeroes_region 16 16 16 imgOnes 0 10 10 (by decide)⟩

/-- C8: Cutout is shape-preserving and touches only the masked slice: the
output has the input's `(C, h, w)`; every pixel outside the slice equals
the corresponding input pixel (multiplication by mask value `1`); and for
any center `torch.randint` can draw (`y < h`, `x < w`) the slice bounds
satisfy `0 ≤ y1 ≤ y2 ≤ h` and `0 ≤ x1 ≤ x2 ≤ w`, so the mask assignment
never indexes out of bounds. -/
theorem cutout_frame (l y x : ℕ) (img : Image)
    (hy : y < img.h) (hx : x < img.w) :
    (cutout l y x img).C = img.C ∧
    (cutout l y x img).h = img.h ∧
    (cutout l y x img).w = img.w ∧
    (∀ c i j, ¬ inCutRegion l y x img.h img.w i j →
      (cutout l y x img).pix c i j = img.pix c i j) ∧
    (0 ≤ cutLo l y ∧ cutLo l y ≤ cutHi l y img.h ∧
      cutHi l y img.h ≤ (img.h : ℤ)) ∧
    (0 ≤ cutLo l x ∧ cutLo l x ≤ cutHi l x img.w ∧
      cutHi l x img.w ≤ (img.w : ℤ)) := by
  refine ⟨rfl, rfl, rfl, ?_, ?_, ?_⟩
  · intro c i j hn
    simp [cutout, hn]
  · unfold cutLo cutHi
    omega
  · unfold cutLo cutHi
    omega

/-- Witness for C8 at `l = 16`, center `(0, 0)` on the all-ones image. -/
theorem cutout_frame_witness :
    (0 : ℕ) < imgOnes.h ∧ (0 : ℕ) < imgOnes.w ∧
    (cutout 16 0 0 imgOnes).h = imgOnes.h :=
  ⟨by decide, by decide,
   (cutout_frame 16 0 0 imgOnes (by decide) (by decide)).2.1⟩

/-! ## The training script as a state machine

The script body is: 70 iterations of `train(epoch); acc = validate(epoch);
scheduler.step(); if acc > best_acc: best_acc = acc; torch.save(...)`;
then `model.load_state_dict(torch.load('resnet152_cifar10_weights_best.pt'))`
and construction of `finetune_optimizer` / `finetune_scheduler`; then 15
iterations of the same loop shape with `finetune`, `finetune_validate`,
`finetune_scheduler.step()` and the filename
`resnet152_cifar10_finetuned_best.pt`.  The numeric effect of a training
pass and the measured validation accuracy are supplied by oracles; the
checkpoint files are modelled as `Option`-valued cells. -/

/-- Oracles for what the external ML library computes during an epoch:
the initial parameters, the effect of one initial-phase training pass, the
effect of one fine-tuning pass, and the validation accuracy of a
parameter set (both `validate` functions run the model on the same
`testloader`). -/
structure Oracle (P : Type) where
  initParams : P
  trainStep : ℕ → P → P
  ftStep : ℕ → P → P
  acc : P → ℚ

/-- Model parameters after `n` initial-phase training passes. -/
def paramsAt {P : Type} (o : Oracle P) : ℕ → P
  | 0 => o.initParams
  | n + 1 => o.trainStep n (paramsAt o n)

/-- Validation accuracy measured after initial epoch `e`'s training pass. -/
def accAt {P : Type} (o : Oracle P) (e : ℕ) : ℚ :=
  o.acc (paramsAt o (e + 1))

/-- Parameters after `n` fine-tuning passes from start parameters `p0`. -/
def ftParamsAt {P : Type} (o : Oracle P) (p0 : P) : ℕ → P
  | 0 => p0
  | n + 1 => o.ftStep n (ftParamsAt o p0 n)

/-- Validation accuracy after fine-tuning epoch `e`, starting from `p0`. -/
def ftAccAt {P : Type} (o : Oracle P) (p0 : P) (e : ℕ) : ℚ :=
  o.acc (ftParamsAt o p0 (e + 1))

/-- The running `best_acc` after `n` epochs with per-epoch accuracies
`acc`, starting from `b0`: updated exactly on strict improvement. -/
def bestAfter (acc : ℕ → ℚ) (b0 : ℚ) : ℕ → ℚ
  | 0 => b0
  | n + 1 =>
    if bestAfter acc b0 n < acc n then acc n else bestAfter acc b0 n

/-- The checkpoint-file contents after `n` epochs: overwritten with the
epoch's parameters exactly when the epoch's accuracy strictly exceeds the
running best. -/
def fileAfter {P : Type} (acc : ℕ → ℚ) (pars : ℕ → P) (b0 : ℚ)
    (f0 : Option P) : ℕ → Option P
  | 0 => f0
  | n + 1 =>
    if bestAfter acc b0 n < acc n then some (pars n)
    else fileAfter acc pars b0 f0 n

/-- Observable events of the script, listed in execution order. -/
inductive Ev where
  | trainEv : ℕ → Ev
  | valEv : ℕ → Ev
  | schedEv : ℕ → Ev
  | saveBestEv : ℕ → Ev
  | loadEv : Ev
  | ftTrainEv : ℕ → Ev
  | ftValEv : ℕ → Ev
  | ftSchedEv : ℕ → Ev
  | saveFTEv : ℕ → Ev
deriving DecidableEq

/-- A timestamp for each event under the order the spec asserts: the
events of initial epoch `e` occupy `5e .. 5e+3` (train pass, validation,
scheduler step, checkpoint save), the checkpoint load sits at `1000`, and
the events of fine-tuning epoch `e` occupy `1001 + 5e .. 1001 + 5e + 3`. -/
def rank : Ev → ℕ
  | .trainEv e => 5 * e
  | .valEv e => 5 * e + 1
  | .schedEv e => 5 * e + 2
  | .saveBestEv e => 5 * e + 3
  | .loadEv => 1000
  | .ftTrainEv e => 1001 + 5 * e
  | .ftValEv e => 1001 + 5 * e + 1
  | .ftSchedEv e => 1001 + 5 * e + 2
  | .saveFTEv e => 1001 + 5 * e + 3

/-- Events emitted by the initial training loop. -/
def isInitPhase : Ev → Bool
  | .trainEv _ | .valEv _ | .schedEv _ | .saveBestEv _ => true
  | _ => false

/-- Events emitted by the fine-tuning loop. -/
def isFtPhase : Ev → Bool
  | .ftTrainEv _ | .ftValEv _ | .ftSchedEv _ | .saveFTEv _ => true
  | _ => false

/-- Mutable script state during the initial phase: the global model's
parameters, `best_acc`, the contents of
`resnet152_cifar10_weights_best.pt` (`none` while the file does not
exist), and the scheduler. -/
structure St1 (P : Type) where
  params : P
  best_acc : ℚ
  fileBest : Option P
  sched : SchedState
deriving DecidableEq

/-- Script state during the fine-tuning phase: `sched` is the (no longer
stepped) initial scheduler, `ftSched` is `finetune_scheduler`, and
`fileFT` is `resnet152_cifar10_finetuned_best.pt`. -/
structure St2 (P : Type) where
  params : P
  best_acc : ℚ
  fileBest : Option P
  fileFT : Option P
  sched : SchedState
  ftSched : SchedState
deriving DecidableEq

/-- The optimizer hyperparameters of `optim.AdamW(model.parameters(), lr=0.001, weight_decay=5e-4)`. -/
structure Optim where
  lr : ℚ
  weight_decay : ℚ
deriving DecidableEq

/-- The initial-phase optimizer. -/
def optimizer : Optim := ⟨0.001, 5e-4⟩

/-- The freshly constructed fine-tuning optimizer:
`optim.AdamW(model.parameters(), lr=0.0001, weight_decay=5e-4)`. -/
def finetune_optimizer : Optim := ⟨0.0001, 5e-4⟩

/-- One iteration of the initial training loop: `train(epoch)` updates the
model, `validate(epoch)` measures `acc`, `scheduler.step()` runs, and the
checkpoint is written (with `best_acc` updated) iff `acc > best_acc`.
Returns the new state and the events emitted, in order. -/
def initEpochRun {P : Type} (o : Oracle P) (e : ℕ) (s : St1 P) :
    St1 P × List Ev :=
  if s.best_acc < o.acc (o.trainStep e s.params) then
    (⟨o.trainStep e s.params, o.acc (o.trainStep e s.params),
      some (o.trainStep e s.params), schedStep s.sched⟩,
     [.trainEv e, .valEv e, .schedEv e, .saveBestEv e])
  else
    (⟨o.trainStep e s.params, s.best_acc, s.fileBest, schedStep s.sched⟩,
     [.trainEv e, .valEv e, .schedEv e])

/-- State and emitted events after the first `n` iterations of the initial
training loop, from `best_acc = 0.0`, no checkpoint file, and the freshly
constructed `scheduler`. -/
def runInitN {P : Type} (o : Oracle P) : ℕ → St1 P × List Ev
  | 0 => (⟨o.initParams, 0, none, scheduler⟩, [])
  | n + 1 =>
    ((initEpochRun o n (runInitN o n).1).1,
     (runInitN o n).2 ++ (initEpochRun o n (runInitN o n).1).2)

/-- The code between the two loops:
`model.load_state_dict(torch.load('resnet152_cifar10_weights_best.pt'))`
— which raises (modelled as `none`) if the checkpoint was never written —
followed by construction of `finetune_optimizer` and
`finetune_scheduler`.  `best_acc` is carried over, not reset. -/
def setupFT {P : Type} (s : St1 P) : Option (St2 P) :=
  match s.fileBest with
  | none => none
  | some p => some ⟨p, s.best_acc, s.fileBest, none, s.sched, finetune_scheduler⟩

/-- One iteration of the fine-tuning loop: `finetune(epoch)`,
`finetune_validate(epoch)`, `finetune_scheduler.step()`, and a save to
`resnet152_cifar10_finetuned_best.pt` iff `acc > best_acc`. -/
def ftEpochRun {P : Type} (o : Oracle P) (e : ℕ) (s : St2 P) :
    St2 P × List Ev :=
  if s.best_acc < o.acc (o.ftStep e s.params) then
    (⟨o.ftStep e s.params, o.acc (o.ftStep e s.params), s.fileBest,
      some (o.ftStep e s.params), s.sched, schedStep s.ftSched⟩,
     [.ftTrainEv e, .ftValEv e, .ftSchedEv e, .saveFTEv e])
  else
    (⟨o.ftStep e s.params, s.best_acc, s.fileBest, s.fileFT, s.sched,
      schedStep s.ftSched⟩,
     [.ftTrainEv e, .ftValEv e, .ftSchedEv e])

/-- State and emitted events after the first `n` iterations of the
fine-tuning loop from state `s0`. -/
def runFTN {P : Type} (o : Oracle P) (s0 : St2 P) : ℕ → St2 P × List Ev
  | 0 => (s0, [])
  | n + 1 =>
    ((ftEpochRun o n (runFTN o s0 n).1).1,
     (runFTN o s0 n).2 ++ (ftEpochRun o n (runFTN o s0 n).1).2)

/-- The script sets `num_epochs = 70`. -/
def num_epochs : ℕ := 70

/-- The script sets `fine_tune_epochs = 15`. -/
def fine_tune_epochs : ℕ := 15

/-- The whole script: 70 initial epochs, the checkpoint load (aborting,
as `torch.load` of a missing file would, if no checkpoint was ever
written), then 15 fine-tuning epochs.  Returns the final state (`none` on
abort) and the full event trace. -/
def runScript {P : Type} (o : Oracle P) : Option (St2 P) × List Ev :=
  match setupFT (runInitN o num_epochs).1 with
  | none => (none, (runInitN o num_epochs).2)
  | some s2 =>
    (some (runFTN o s2 fine_tune_epochs).1,
     (runInitN o num_epochs).2 ++ Ev.loadEv :: (runFTN o s2 fine_tune_epochs).2)

/-- The full event trace of the script. -/
def scriptTrace {P : Type} (o : Oracle P) : List Ev := (runScript o).2

theorem runInitN_state {P : Type} (o : Oracle P) (n : ℕ) :
    (runInitN o n).1 =
      ⟨paramsAt o n, bestAfter (accAt o) 0 n,
       fileAfter (accAt o) (fun e => paramsAt o (e + 1)) 0 none n,
       stepN n scheduler⟩ := by
  induction n with
  | zero => rfl
  | succ n ih =>
    by_cases hc : bestAfter (accAt o) 0 n < o.acc (o.trainStep n (paramsAt o n)) <;>
      simp [runInitN, initEpochRun, ih, bestAfter, fileAfter, paramsAt,
        accAt, stepN, hc]

theorem runFTN_state {P : Type} (o : Oracle P) (s0 : St2 P) (n : ℕ) :
    (runFTN o s0 n).1 =
      ⟨ftParamsAt o s0.params n,
       bestAfter (ftAccAt o s0.params) s0.best_acc n,
       s0.fileBest,
       fileAfter (ftAccAt o s0.params) (fun e => ftParamsAt o s0.params (e + 1))
         s0.best_acc s0.fileFT n,
       s0.sched,
       stepN n s0.ftSched⟩ := by
  induction n with
  | zero => rfl
  | succ n ih =>
    by_cases hc : bestAfter (ftAccAt o s0.params) s0.best_acc n <
        o.acc (o.ftStep n (ftParamsAt o s0.params n)) <;>
      simp [runFTN, ftEpochRun, ih, bestAfter, fileAfter, ftParamsAt,
        ftAccAt, stepN, hc]

theorem accAt_eq {P : Type} (o : Oracle P) (n : ℕ) :
    accAt o n = o.acc (o.trainStep n (paramsAt o n)) := rfl

theorem ftAccAt_eq {P : Type} (o : Oracle P) (p0 : P) (n : ℕ) :
    ftAccAt o p0 n = o.acc (o.ftStep n (ftParamsAt o p0 n)) := rfl

theorem runInitN_trace_succ {P : Type} (o : Oracle P) (n : ℕ) :
    (runInitN o (n + 1)).2 =
      (runInitN o n).2 ++
        (if bestAfter (accAt o) 0 n < accAt o n then
          [Ev.trainEv n, Ev.valEv n, Ev.schedEv n, Ev.saveBestEv n]
        else [Ev.trainEv n, Ev.valEv n, Ev.schedEv n]) := by
  rw [accAt_eq]
  by_cases hc : bestAfter (accAt o) 0 n < o.acc (o.trainStep n (paramsAt o n)) <;>
    simp [runInitN, initEpochRun, runInitN_state o n, hc]

theorem runFTN_trace_succ {P : Type} (o : Oracle P) (s0 : St2 P) (n : ℕ) :
    (runFTN o s0 (n + 1)).2 =
      (runFTN o s0 n).2 ++
        (if bestAfter (ftAccAt o s0.params) s0.best_acc n < ftAccAt o s0.params n then
          [Ev.ftTrainEv n, Ev.ftValEv n, Ev.ftSchedEv n, Ev.saveFTEv n]
        else [Ev.ftTrainEv n, Ev.ftValEv n, Ev.ftSchedEv n]) := by
  rw [ftAccAt_eq]
  by_cases hc : bestAfter (ftAccAt o s0.params) s0.best_acc n <
      o.acc (o.ftStep n (ftParamsAt o s0.params n)) <;>
    simp [runFTN, ftEpochRun, runFTN_state o s0 n, hc]

theorem trainEv_mem {P : Type} (o : Oracle P) (n e : ℕ) :
    Ev.trainEv e ∈ (runInitN o n).2 ↔ e < n := by
  induction n with
  | zero => simp [runInitN]
  | succ n ih =>
    rw [runInitN_trace_succ, List.mem_append, ih]
    by_cases hc : bestAfter (accAt o) 0 n < accAt o n <;> simp [hc] <;> omega

theorem valEv_mem {P : Type} (o : Oracle P) (n e : ℕ) :
    Ev.valEv e ∈ (runInitN o n).2 ↔ e < n := by
  induction n with
  | zero => simp [runInitN]
  | succ n ih =>
    rw [runInitN_trace_succ, List.mem_append, ih]
    by_cases hc : bestAfter (accAt o) 0 n < accAt o n <;> simp [hc] <;> omega

theorem schedEv_mem {P : Type} (o : Oracle P) (n e : ℕ) :
    Ev.schedEv e ∈ (runInitN o n).2 ↔ e < n := by
  induction n with
  | zero => simp [runInitN]
  | succ n ih =>
    rw [runInitN_trace_succ, List.mem_append, ih]
    by_cases hc : bestAfter (accAt o) 0 n < accAt o n <;> simp [hc] <;> omega

theorem saveBestEv_mem {P : Type} (o : Oracle P) (n e : ℕ) :
    Ev.saveBestEv e ∈ (runInitN o n).2 ↔
      e < n ∧ bestAfter (accAt o) 0 e < accAt o e := by
  induction n with
  | zero => simp [runInitN]
  | succ n ih =>
    rw [runInitN_trace_succ, List.mem_append, ih]
    by_cases hc : bestAfter (accAt o) 0 n < accAt o n
    · rw [if_pos hc]
      constructor
      · rintro (⟨h1, h2⟩ | h)
        · exact ⟨Nat.lt_succ_of_lt h1, h2⟩
        · have he : e = n := by simpa using h
          subst he
          exact ⟨Nat.lt_succ_self e, hc⟩
      · rintro ⟨h1, h2⟩
        rcases Nat.lt_succ_iff_lt_or_eq.mp h1 with h | h
        · exact Or.inl ⟨h, h2⟩
        · subst h
          right
          simp
    · rw [if_neg hc]
      constructor
      · rintro (⟨h1, h2⟩ | h)
        · exact ⟨Nat.lt_succ_of_lt h1, h2⟩
        · simp at h
      · rintro ⟨h1, h2⟩
        rcases Nat.lt_succ_iff_lt_or_eq.mp h1 with h | h
        · exact Or.inl ⟨h, h2⟩
        · subst h
          exact absurd h2 hc

theorem runInitN_phase {P : Type} (o : Oracle P) (n : ℕ) :
    ∀ ev ∈ (runInitN o n).2, isInitPhase ev = true := by
  induction n with
  | zero => simp [runInitN]
  | succ n ih =>
    rw [runInitN_trace_succ]
    intro ev hev
    rcases List.mem_append.mp hev with h | h
    · exact ih ev h
    · by_cases hc : bestAfter (accAt o) 0 n < accAt o n
      · rw [if_pos hc] at h
        simp at h
        rcases h with rfl | rfl | rfl | rfl <;> rfl
      · rw [if_neg hc] at h
        simp at h
        rcases h with rfl | rfl | rfl <;> rfl

theorem rank_init_lt {P : Type} (o : Oracle P) (n : ℕ) :
    ∀ ev ∈ (runInitN o n).2, rank ev < 5 * n := by
  induction n with
  | zero => simp [runInitN]
  | succ n ih =>
    rw [runInitN_trace_succ]
    intro ev hev
    rcases List.mem_append.mp hev with h | h
    · exact lt_trans (ih ev h) (by omega)
    · by_cases hc : bestAfter (accAt o) 0 n < accAt o n
      · rw [if_pos hc] at h
        simp at h
        rcases h with rfl | rfl | rfl | rfl <;> simp only [rank] <;> omega
      · rw [if_neg hc] at h
        simp at h
        rcases h with rfl | rfl | rfl <;> simp only [rank] <;> omega

theorem runInitN_pairwise {P : Type} (o : Oracle P) (n : ℕ) :
    (runInitN o n).2.Pairwise (fun a b => rank a < rank b) := by
  induction n with
  | zero => simp [runInitN]
  | succ n ih =>
    rw [runInitN_trace_succ]
    apply List.pairwise_append.mpr
    refine ⟨ih, ?_, ?_⟩
    · by_cases hc : bestAfter (accAt o) 0 n < accAt o n
      · rw [if_pos hc]
        simp [List.pairwise_cons, rank]
      · rw [if_neg hc]
        simp [List.pairwise_cons, rank]
    · intro a ha b hb
      have h1 := rank_init_lt o n a ha
      have h2 : 5 * n ≤ rank b := by
        by_cases hc : bestAfter (accAt o) 0 n < accAt o n
        · rw [if_pos hc] at hb
          simp at hb
          rcases hb with rfl | rfl | rfl | rfl <;> simp only [rank] <;> omega
        · rw [if_neg hc] at hb
          simp at hb
          rcases hb with rfl | rfl | rfl <;> simp only [rank] <;> omega
      omega

theorem ftValEv_mem {P : Type} (o : Oracle P) (s0 : St2 P) (n e : ℕ) :
    Ev.ftValEv e ∈ (runFTN o s0 n).2 ↔ e < n := by
  induction n with
  | zero => simp [runFTN]
  | succ n ih =>
    rw [runFTN_trace_succ, List.mem_append, ih]
    by_cases hc : bestAfter (ftAccAt o s0.params) s0.best_acc n <
        ftAccAt o s0.params n <;> simp [hc] <;> omega

theorem saveFTEv_mem {P : Type} (o : Oracle P) (s0 : St2 P) (n e : ℕ) :
    Ev.saveFTEv e ∈ (runFTN o s0 n).2 ↔
      e < n ∧ bestAfter (ftAccAt o s0.params) s0.best_acc e < ftAccAt o s0.params e := by
  induction n with
  | zero => simp [runFTN]
  | succ n ih =>
    rw [runFTN_trace_succ, List.mem_append, ih]
    by_cases hc : bestAfter (ftAccAt o s0.params) s0.best_acc n < ftAccAt o s0.params n
    · rw [if_pos hc]
      constructor
      · rintro (⟨h1, h2⟩ | h)
        · exact ⟨Nat.lt_succ_of_lt h1, h2⟩
        · have he : e = n := by simpa using h
          subst he
          exact ⟨Nat.lt_succ_self e, hc⟩
      · rintro ⟨h1, h2⟩
        rcases Nat.lt_succ_iff_lt_or_eq.mp h1 with h | h
        · exact Or.inl ⟨h, h2⟩
        · subst h
          right
          simp
    · rw [if_neg hc]
      constructor
      · rintro (⟨h1, h2⟩ | h)
        · exact ⟨Nat.lt_succ_of_lt h1, h2⟩
        · simp at h
      · rintro ⟨h1, h2⟩
        rcases Nat.lt_succ_iff_lt_or_eq.mp h1 with h | h
        · exact Or.inl ⟨h, h2⟩
        · subst h
          exact absurd h2 hc

theorem runFTN_phase {P : Type} (o : Oracle P) (s0 : St2 P) (n : ℕ) :
    ∀ ev ∈ (runFTN o s0 n).2, isFtPhase ev = true := by
  induction n with
  | zero => simp [runFTN]
  | succ n ih =>
    rw [runFTN_trace_succ]
    intro ev hev
    rcases List.mem_append.mp hev with h | h
    · exact ih ev h
    · by_cases hc : bestAfter (ftAccAt o s0.params) s0.best_acc n <
          ftAccAt o s0.params n
      · rw [if_pos hc] at h
        simp at h
        rcases h with rfl | rfl | rfl | rfl <;> rfl
      · rw [if_neg hc] at h
        simp at h
        rcases h with rfl | rfl | rfl <;> rfl

theorem rank_ft_bound {P : Type} (o : Oracle P) (s0 : St2 P) (n : ℕ) :
    ∀ ev ∈ (runFTN o s0 n).2, 1001 ≤ rank ev ∧ rank ev < 1001 + 5 * n := by
  induction n with
  | zero => simp [runFTN]
  | succ n ih =>
    rw [runFTN_trace_succ]
    intro ev hev
    rcases List.mem_append.mp hev with h | h
    · obtain ⟨h1, h2⟩ := ih ev h
      exact ⟨h1, by omega⟩
    · by_cases hc : bestAfter (ftAccAt o s0.params) s0.best_acc n <
          ftAccAt o s0.params n
      · rw [if_pos hc] at h
        simp at h
        rcases h with rfl | rfl | rfl | rfl <;> simp only [rank] <;> omega
      · rw [if_neg hc] at h
        simp at h
        rcases h with rfl | rfl | rfl <;> simp only [rank] <;> omega

theorem runFTN_pairwise {P : Type} (o : Oracle P) (s0 : St2 P) (n : ℕ) :
    (runFTN o s0 n).2.Pairwise (fun a b => rank a < rank b) := by
  induction n with
  | zero => simp [runFTN]
  | succ n ih =>
    rw [runFTN_trace_succ]
    apply List.pairwise_append.mpr
    refine ⟨ih, ?_, ?_⟩
    · by_cases hc : bestAfter (ftAccAt o s0.params) s0.best_acc n <
          ftAccAt o s0.params n
      · rw [if_pos hc]
        simp [List.pairwise_cons, rank]
      · rw [if_neg hc]
        simp [List.pairwise_cons, rank]
    · intro a ha b hb
      have h1 := (rank_ft_bound o s0 n a ha).2
      have h2 : 1001 + 5 * n ≤ rank b := by
        by_cases hc : bestAfter (ftAccAt o s0.params) s0.best_acc n <
            ftAccAt o s0.params n
        · rw [if_pos hc] at hb
          simp at hb
          rcases hb with rfl | rfl | rfl | rfl <;> simp only [rank] <;> omega
        · rw [if_neg hc] at hb
          simp at hb
          rcases hb with rfl | rfl | rfl <;> simp only [rank] <;> omega
      omega

theorem scriptTrace_eq_none {P : Type} (o : Oracle P)
    (h : setupFT (runInitN o num_epochs).1 = none) :
    scriptTrace o = (runInitN o num_epochs).2 := by
  unfold scriptTrace runScript
  rw [h]

theorem scriptTrace_eq_some {P : Type} (o : Oracle P) (s2 : St2 P)
    (h : setupFT (runInitN o num_epochs).1 = some s2) :
    scriptTrace o = (runInitN o num_epochs).2 ++
      Ev.loadEv :: (runFTN o s2 fine_tune_epochs).2 := by
  unfold scriptTrace runScript
  rw [h]

theorem le_bestAfter (acc : ℕ → ℚ) (b0 : ℚ) (n : ℕ) :
    b0 ≤ bestAfter acc b0 n := by
  induction n with
  | zero => exact le_refl b0
  | succ n ih =>
    by_cases hc : bestAfter acc b0 n < acc n
    · simp only [bestAfter, if_pos hc]
      exact le_of_lt (lt_of_le_of_lt ih hc)
    · simp only [bestAfter, if_neg hc]
      exact ih

theorem acc_le_bestAfter (acc : ℕ → ℚ) (b0 : ℚ) (n e : ℕ) (he : e < n) :
    acc e ≤ bestAfter acc b0 n := by
  induction n with
  | zero => omega
  | succ n ih =>
    by_cases hc : bestAfter acc b0 n < acc n
    · simp only [bestAfter, if_pos hc]
      rcases Nat.lt_succ_iff_lt_or_eq.mp he with h | h
      · exact le_of_lt (lt_of_le_of_lt (ih h) hc)
      · subst h
        exact le_rfl
    · simp only [bestAfter, if_neg hc]
      rcases Nat.lt_succ_iff_lt_or_eq.mp he with h | h
      · exact ih h
      · subst h
        exact le_of_not_lt hc

theorem bestAfter_lt (acc : ℕ → ℚ) (b0 c : ℚ) (hb : b0 < c) :
    ∀ n, (∀ e, e < n → acc e < c) → bestAfter acc b0 n < c := by
  intro n
  induction n with
  | zero => exact fun _ => hb
  | succ n ih =>
    intro h
    by_cases hc : bestAfter acc b0 n < acc n
    · simp only [bestAfter, if_pos hc]
      exact h n (Nat.lt_succ_self n)
    · simp only [bestAfter, if_neg hc]
      exact ih fun e he => h e (Nat.lt_succ_of_lt he)

theorem lt_bestAfter_exists (acc : ℕ → ℚ) (b0 : ℚ) (n : ℕ)
    (h : b0 < bestAfter acc b0 n) : ∃ e, e < n ∧ b0 < acc e := by
  induction n with
  | zero => exact absurd h (lt_irrefl b0)
  | succ n ih =>
    by_cases hc : bestAfter acc b0 n < acc n
    · rw [show bestAfter acc b0 (n + 1) = acc n from if_pos hc] at h
      exact ⟨n, Nat.lt_succ_self n, h⟩
    · rw [show bestAfter acc b0 (n + 1) = bestAfter acc b0 n from if_neg hc] at h
      obtain ⟨e, he, h2⟩ := ih h
      exact ⟨e, Nat.lt_succ_of_lt he, h2⟩

theorem fileAfter_isSome {P : Type} (acc : ℕ → ℚ) (pars : ℕ → P) (b0 : ℚ)
    (n : ℕ) :
    (fileAfter acc pars b0 none n).isSome = true ↔
      ∃ e, e < n ∧ b0 < acc e := by
  induction n with
  | zero => simp [fileAfter]
  | succ n ih =>
    by_cases hc : bestAfter acc b0 n < acc n
    · simp only [fileAfter, if_pos hc]
      constructor
      · intro _
        exact ⟨n, Nat.lt_succ_self n, lt_of_le_of_lt (le_bestAfter acc b0 n) hc⟩
      · intro _
        rfl
    · simp only [fileAfter, if_neg hc]
      rw [ih]
      constructor
      · rintro ⟨e, he, h2⟩
        exact ⟨e, Nat.lt_succ_of_lt he, h2⟩
      · rintro ⟨e, he, h2⟩
        rcases Nat.lt_succ_iff_lt_or_eq.mp he with h | h
        · exact ⟨e, h, h2⟩
        · have h2n : b0 < acc n := h ▸ h2
          exact lt_bestAfter_exists acc b0 n (lt_of_lt_of_le h2n (le_of_not_lt hc))

theorem fileAfter_some_eq {P : Type} (acc : ℕ → ℚ) (pars : ℕ → P) (b0 : ℚ)
    (n : ℕ) (p : P)
    (h : fileAfter acc pars b0 none n = some p) :
    ∃ e, e < n ∧ p = pars e ∧ acc e = bestAfter acc b0 n := by
  induction n with
  | zero => simp [fileAfter] at h
  | succ n ih =>
    by_cases hc : bestAfter acc b0 n < acc n
    · rw [show fileAfter acc pars b0 none (n + 1) = some (pars n) from if_pos hc] at h
      refine ⟨n, Nat.lt_succ_self n, (Option.some.inj h).symm, ?_⟩
      rw [show bestAfter acc b0 (n + 1) = acc n from if_pos hc]
    · rw [show fileAfter acc pars b0 none (n + 1) = fileAfter acc pars b0 none n
          from if_neg hc] at h
      obtain ⟨e, he, h1, h2⟩ := ih h
      refine ⟨e, Nat.lt_succ_of_lt he, h1, ?_⟩
      rw [h2, show bestAfter acc b0 (n + 1) = bestAfter acc b0 n from if_neg hc]

/-- A concrete oracle over `P = ℕ` used for witnesses: each training pass
increments the parameter value, and a parameter set's accuracy is its
value, so every epoch strictly improves on the previous best. -/
def demoOracle : Oracle ℕ :=
  ⟨0, fun _ p => p + 1, fun _ p => p + 1, fun p => (p : ℚ)⟩

/-- The `St2` state that `setupFT` produces for `demoOracle` after the 70
initial epochs: every epoch improved, so the checkpoint holds parameter
value 70 and `best_acc = 70`. -/
def demoSt2 : St2 ℕ :=
  ⟨70, 70, some 70, none, stepN 70 scheduler, finetune_scheduler⟩

/-- C7: the script executes as the stated flat sequence.  The full event
trace is strictly increasing under `rank`, whose order puts all events of
initial epoch `e` (train pass, then validation, then scheduler step, then
a possible checkpoint save) before those of epoch `e + 1`, every
initial-phase event before the checkpoint load, and the load before every
fine-tuning event; all 70 initial epochs' train/validate/step events are
present; and a checkpoint write of either phase occurs only in a trace
that also contains (and, by the ordering, earlier) that same epoch's
validation event. -/
theorem script_flat_sequence {P : Type} (o : Oracle P) :
    (scriptTrace o).Pairwise (fun a b => rank a < rank b) ∧
    (∀ e, e < 70 →
      Ev.trainEv e ∈ scriptTrace o ∧ Ev.valEv e ∈ scriptTrace o ∧
        Ev.schedEv e ∈ scriptTrace o) ∧
    (∀ e, Ev.saveBestEv e ∈ scriptTrace o → Ev.valEv e ∈ scriptTrace o) ∧
    (∀ e, Ev.saveFTEv e ∈ scriptTrace o → Ev.ftValEv e ∈ scriptTrace o) := by
  cases hsetup : setupFT (runInitN o num_epochs).1 with
  | none =>
    rw [scriptTrace_eq_none o hsetup]
    refine ⟨runInitN_pairwise o num_epochs, ?_, ?_, ?_⟩
    · intro e he
      exact ⟨(trainEv_mem o num_epochs e).mpr he,
             (valEv_mem o num_epochs e).mpr he,
             (schedEv_mem o num_epochs e).mpr he⟩
    · intro e hmem
      exact (valEv_mem o num_epochs e).mpr
        ((saveBestEv_mem o num_epochs e).mp hmem).1
    · intro e hmem
      have hph := runInitN_phase o num_epochs _ hmem
      simp [isInitPhase] at hph
  | some s2 =>
    rw [scriptTrace_eq_some o s2 hsetup]
    refine ⟨?_, ?_, ?_, ?_⟩
    · apply List.pairwise_append.mpr
      refine ⟨runInitN_pairwise o num_epochs, ?_, ?_⟩
      · apply List.pairwise_cons.mpr
        refine ⟨?_, runFTN_pairwise o s2 fine_tune_epochs⟩
        intro b hb
        have h1 := (rank_ft_bound o s2 fine_tune_epochs b hb).1
        have hl : rank Ev.loadEv = 1000 := rfl
        rw [hl]
        omega
      · intro a ha b hb
        have h1 := rank_init_lt o num_epochs a ha
        have h5 : 5 * num_epochs = 350 := rfl
        rcases List.mem_cons.mp hb with rfl | hb2
        · have hl : rank Ev.loadEv = 1000 := rfl
          rw [hl]
          omega
        · have h2 := (rank_ft_bound o s2 fine_tune_epochs b hb2).1
          omega
    · intro e he
      exact ⟨List.mem_append_left _ ((trainEv_mem o num_epochs e).mpr he),
             List.mem_append_left _ ((valEv_mem o num_epochs e).mpr he),
             List.mem_append_left _ ((schedEv_mem o num_epochs e).mpr he)⟩
    · intro e hmem
      rcases List.mem_append.mp hmem with h | h
      · exact List.mem_append_left _
          ((valEv_mem o num_epochs e).mpr ((saveBestEv_mem o num_epochs e).mp h).1)
      · rcases List.mem_cons.mp h with h2 | h2
        · exact absurd h2 (by simp)
        · have hph := runFTN_phase o s2 fine_tune_epochs _ h2
          simp [isFtPhase] at hph
    · intro e hmem
      rcases List.mem_append.mp hmem with h | h
      · have hph := runInitN_phase o num_epochs _ h
        simp [isInitPhase] at hph
      · rcases List.mem_cons.mp h with h2 | h2
        · exact absurd h2 (by simp)
        · have h3 := ((saveFTEv_mem o s2 fine_tune_epochs e).mp h2).1
          exact List.mem_append_right _
            (List.mem_cons_of_mem _ ((ftValEv_mem o s2 fine_tune_epochs e).mpr h3))

/-- Witness for C7: the first initial train pass occurs in the concrete
run's trace. -/
theorem script_flat_sequence_witness :
    (0 : ℕ) < 70 ∧ Ev.trainEv 0 ∈ scriptTrace demoOracle :=
  ⟨by decide, ((script_flat_sequence demoOracle).2.1 0 (by decide)).1⟩

/-- C1: best-accuracy checkpointing, in each phase's epoch loop.  In the
initial loop: a checkpoint save happens at epoch `e` exactly when that
epoch's validation accuracy strictly exceeds the running `best_acc`; an
epoch that does not improve leaves the checkpoint file unchanged;
`best_acc` is an upper bound of all accuracies seen; and whenever the file
holds a parameter set `p`, `p` was produced by an epoch whose accuracy
equals `best_acc` and is maximal among all epochs seen so far.  In the
fine-tuning loop, run from any phase-2 start state `s0` whose fine-tuned
checkpoint file does not yet exist (as `setupFT` produces): the same four
properties hold for `resnet152_cifar10_finetuned_best.pt`, with the
running best starting from the carried-over `s0.best_acc`, so a saved
fine-tuned parameter set also beat everything the initial phase
achieved. -/
theorem checkpoint_holds_best {P : Type} (o : Oracle P) (s0 : St2 P)
    (n e : ℕ) (he : e < n) (hft : s0.fileFT = none) :
    (Ev.saveBestEv e ∈ (runInitN o n).2 ↔
      (runInitN o e).1.best_acc < accAt o e) ∧
    (¬ (runInitN o e).1.best_acc < accAt o e →
      (runInitN o (e + 1)).1.fileBest = (runInitN o e).1.fileBest) ∧
    (∀ j, j < n → accAt o j ≤ (runInitN o n).1.best_acc) ∧
    (∀ p, (runInitN o n).1.fileBest = some p →
      ∃ i, i < n ∧ p = paramsAt o (i + 1) ∧
        accAt o i = (runInitN o n).1.best_acc ∧
        ∀ j, j < n → accAt o j ≤ accAt o i) ∧
    (Ev.saveFTEv e ∈ (runFTN o s0 n).2 ↔
      (runFTN o s0 e).1.best_acc < ftAccAt o s0.params e) ∧
    (¬ (runFTN o s0 e).1.best_acc < ftAccAt o s0.params e →
      (runFTN o s0 (e + 1)).1.fileFT = (runFTN o s0 e).1.fileFT) ∧
    (∀ j, j < n → ftAccAt o s0.params j ≤ (runFTN o s0 n).1.best_acc) ∧
    (∀ p, (runFTN o s0 n).1.fileFT = some p →
      ∃ i, i < n ∧ p = ftParamsAt o s0.params (i + 1) ∧
        ftAccAt o s0.params i = (runFTN o s0 n).1.best_acc ∧
        s0.best_acc ≤ ftAccAt o s0.params i ∧
        ∀ j, j < n → ftAccAt o s0.params j ≤ ftAccAt o s0.params i) := by
  have hse := runInitN_state o e
  have hse1 := runInitN_state o (e + 1)
  have hsn := runInitN_state o n
  refine ⟨?_, ?_, ?_, ?_, ?_, ?_, ?_, ?_⟩
  · rw [saveBestEv_mem, hse]
    exact ⟨fun h => h.2, fun h => ⟨he, h⟩⟩
  · intro hne
    rw [hse] at hne
    rw [hse1, hse]
    have hne2 : ¬ bestAfter (accAt o) 0 e < accAt o e := hne
    show fileAfter (accAt o) (fun i => paramsAt o (i + 1)) 0 none (e + 1) =
      fileAfter (accAt o) (fun i => paramsAt o (i + 1)) 0 none e
    simp only [fileAfter, if_neg hne2]
  · intro j hj
    rw [hsn]
    exact acc_le_bestAfter (accAt o) 0 n j hj
  · intro p hp
    rw [hsn] at hp
    have hp2 : fileAfter (accAt o) (fun i => paramsAt o (i + 1)) 0 none n =
        some p := hp
    obtain ⟨i, hi, h1, h2⟩ :=
      fileAfter_some_eq (accAt o) (fun i => paramsAt o (i + 1)) 0 n p hp2
    refine ⟨i, hi, h1, ?_, ?_⟩
    · rw [hsn]
      exact h2
    · intro j hj
      calc accAt o j ≤ bestAfter (accAt o) 0 n :=
            acc_le_bestAfter (accAt o) 0 n j hj
        _ = accAt o i := h2.symm
  · rw [saveFTEv_mem, runFTN_state o s0 e]
    exact ⟨fun h => h.2, fun h => ⟨he, h⟩⟩
  · intro hne
    rw [runFTN_state o s0 e] at hne
    rw [runFTN_state o s0 (e + 1), runFTN_state o s0 e]
    have hne2 : ¬ bestAfter (ftAccAt o s0.params) s0.best_acc e <
        ftAccAt o s0.params e := hne
    show fileAfter (ftAccAt o s0.params) (fun i => ftParamsAt o s0.params (i + 1))
        s0.best_acc s0.fileFT (e + 1) =
      fileAfter (ftAccAt o s0.params) (fun i => ftParamsAt o s0.params (i + 1))
        s0.best_acc s0.fileFT e
    simp only [fileAfter, if_neg hne2]
  · intro j hj
    rw [runFTN_state o s0 n]
    exact acc_le_bestAfter (ftAccAt o s0.params) s0.best_acc n j hj
  · intro p hp
    rw [runFTN_state o s0 n] at hp
    have hp2 : fileAfter (ftAccAt o s0.params)
        (fun i => ftParamsAt o s0.params (i + 1)) s0.best_acc s0.fileFT n =
        some p := hp
    rw [hft] at hp2
    obtain ⟨i, hi, h1, h2⟩ :=
      fileAfter_some_eq (ftAccAt o s0.params)
        (fun i => ftParamsAt o s0.params (i + 1)) s0.best_acc n p hp2
    refine ⟨i, hi, h1, ?_, ?_, ?_⟩
    · rw [runFTN_state o s0 n]
      exact h2
    · rw [h2]
      exact le_bestAfter (ftAccAt o s0.params) s0.best_acc n
    · intro j hj
      calc ftAccAt o s0.params j ≤ bestAfter (ftAccAt o s0.params) s0.best_acc n :=
            acc_le_bestAfter (ftAccAt o s0.params) s0.best_acc n j hj
        _ = ftAccAt o s0.params i := h2.symm

/-- Witness for C1 at the concrete oracle and phase-2 start state,
`n = 2`, `e = 1`, exercising both the initial-loop and the
fine-tuning-loop save conditions. -/
theorem checkpoint_holds_best_witness :
    (1 : ℕ) < 2 ∧ demoSt2.fileFT = none ∧
    (Ev.saveBestEv 1 ∈ (runInitN demoOracle 2).2 ↔
      (runInitN demoOracle 1).1.best_acc < accAt demoOracle 1) ∧
    (Ev.saveFTEv 1 ∈ (runFTN demoOracle demoSt2 2).2 ↔
      (runFTN demoOracle demoSt2 1).1.best_acc <
        ftAccAt demoOracle demoSt2.params 1) :=
  ⟨by decide, rfl,
   (checkpoint_holds_best demoOracle demoSt2 2 1 (by decide) rfl).1,
   (checkpoint_holds_best demoOracle demoSt2 2 1 (by decide) rfl).2.2.2.2.1⟩

/-- C5: the fine-tuning phase starts from the best checkpoint of the
initial phase.  If the initial phase left `p` in
`resnet152_cifar10_weights_best.pt`, then the model parameters at the
start of fine-tuning are exactly `p`, and `p` is the parameter set of an
initial epoch whose validation accuracy is maximal over all 70 initial
epochs. -/
theorem finetune_starts_from_best {P : Type} (o : Oracle P) (p : P)
    (h : (runInitN o num_epochs).1.fileBest = some p) :
    ((setupFT (runInitN o num_epochs).1).map fun s => s.params) = some p ∧
    ∃ i, i < num_epochs ∧ p = paramsAt o (i + 1) ∧
      ∀ j, j < num_epochs → accAt o j ≤ accAt o i := by
  constructor
  · simp [setupFT, h]
  · have hsn := runInitN_state o num_epochs
    rw [hsn] at h
    have hp2 : fileAfter (accAt o) (fun i => paramsAt o (i + 1)) 0 none
        num_epochs = some p := h
    obtain ⟨i, hi, h1, h2⟩ :=
      fileAfter_some_eq (accAt o) (fun i => paramsAt o (i + 1)) 0 num_epochs p hp2
    refine ⟨i, hi, h1, fun j hj => ?_⟩
    calc accAt o j ≤ bestAfter (accAt o) 0 num_epochs :=
          acc_le_bestAfter (accAt o) 0 num_epochs j hj
      _ = accAt o i := h2.symm

/-- Witness for C5: on the concrete oracle the best checkpoint holds the
parameter value 70, and fine-tuning starts from it. -/
theorem finetune_starts_from_best_witness :
    ((setupFT (runInitN demoOracle num_epochs).1).map fun s => s.params) =
      some 70 :=
  (finetune_starts_from_best demoOracle 70 (by decide)).1

/-- On the concrete oracle every epoch improves, so after the 70 initial
epochs the checkpoint file holds the parameter value 70. -/
theorem demo_fileBest :
    (runInitN demoOracle num_epochs).1.fileBest = some 70 := by decide

/-- After the 70 initial epochs of the concrete run, `best_acc = 70`. -/
theorem demo_best_acc :
    (runInitN demoOracle num_epochs).1.best_acc = (70 : ℚ) := by decide

/-- Running `setupFT` on the concrete run produces `demoSt2`. -/
theorem demo_setupFT :
    setupFT (runInitN demoOracle num_epochs).1 = some demoSt2 := by
  have hs : (runInitN demoOracle num_epochs).1.sched = stepN 70 scheduler := by
    rw [runInitN_state]
    rfl
  simp [setupFT, demo_fileBest, demoSt2, demo_best_acc, hs]

/-- C6 counterexample: on a concrete run of the embedded script, the
scheduler stepped by the fine-tuning loop is the freshly constructed
`finetune_scheduler` — its epoch counter is `0` and its cycle length
`T_0 = 30` — while the initial phase's scheduler has counted 70 epochs
with `T_0 = 60`; the fresh fine-tuning optimizer's learning rate is
`0.0001`, not the initial optimizer's `0.001`.  The fine-tuning loop does
not step the same scheduler or optimizer with accumulated state. -/
theorem finetune_not_same_scheduler :
    ((setupFT (runInitN demoOracle num_epochs).1).map
      fun s => s.ftSched.last_epoch) = some 0 ∧
    ((setupFT (runInitN demoOracle num_epochs).1).map
      fun s => s.ftSched.T_0) = some 30 ∧
    (runInitN demoOracle num_epochs).1.sched.last_epoch = 70 ∧
    (runInitN demoOracle num_epochs).1.sched.T_0 = 60 ∧
    ¬ finetune_optimizer.lr = optimizer.lr := by
  refine ⟨?_, ?_, ?_, ?_, ?_⟩
  · rw [demo_setupFT]
    rfl
  · rw [demo_setupFT]
    rfl
  · rw [runInitN_state, stepN_eq]
    rfl
  · rw [runInitN_state, stepN_eq]
    rfl
  · norm_num [finetune_optimizer, optimizer]

/-- C6 (amended): a single global model is reused across the two phases —
fine-tuning continues from the same model state, set to the loaded
checkpoint, and each fine-tuning pass updates it in place — but the
optimizer and scheduler are NOT reused: between the phases the script
constructs `finetune_optimizer` (`lr = 0.0001`) and `finetune_scheduler`
(`T_0 = 30`, `T_up = 5`, epoch counter restarted at `0` rather than
continuing from `70`), and the fine-tuning loop steps only the fresh
scheduler, leaving the initial one untouched. -/
theorem finetune_fresh_optimizer_and_scheduler {P : Type} (o : Oracle P)
    (s2 : St2 P) (h : setupFT (runInitN o num_epochs).1 = some s2) :
    (runInitN o num_epochs).1.fileBest = some s2.params ∧
    s2.best_acc = (runInitN o num_epochs).1.best_acc ∧
    s2.ftSched = finetune_scheduler ∧
    finetune_scheduler.last_epoch = 0 ∧
    s2.sched = (runInitN o num_epochs).1.sched ∧
    (runInitN o num_epochs).1.sched.last_epoch = 70 ∧
    (∀ n, (runFTN o s2 n).1.sched = s2.sched) ∧
    (∀ n, (runFTN o s2 n).1.ftSched = stepN n s2.ftSched) ∧
    (∀ n, (runFTN o s2 n).1.params = ftParamsAt o s2.params n) := by
  cases hf : (runInitN o num_epochs).1.fileBest with
  | none => simp [setupFT, hf] at h
  | some p =>
    simp only [setupFT, hf, Option.some.injEq] at h
    subst h
    refine ⟨?_, rfl, rfl, rfl, rfl, ?_, ?_, ?_, ?_⟩
    · rfl
    · rw [runInitN_state, stepN_eq]
      rfl
    · intro n
      rw [runFTN_state]
    · intro n
      rw [runFTN_state]
    · intro n
      rw [runFTN_state]

/-- Witness for C6 (amended) on the concrete run. -/
theorem finetune_fresh_optimizer_and_scheduler_witness :
    demoSt2.ftSched = finetune_scheduler :=
  (finetune_fresh_optimizer_and_scheduler demoOracle demoSt2 demo_setupFT).2.2.1

/-- C10: the fine-tuning loop never touches the initial phase's
checkpoint file, and — because `best_acc` is carried over, not reset — it
writes its own file `resnet152_cifar10_finetuned_best.pt` iff some
fine-tuning epoch's validation accuracy strictly exceeds every validation
accuracy of the 70 initial epochs; otherwise no fine-tuned checkpoint is
produced at all.  (`hpos` records that the script's accuracies,
`100 * correct / total`, are nonnegative.) -/
theorem finetune_checkpoint_file {P : Type} (o : Oracle P) (s2 : St2 P)
    (hpos : ∀ q, 0 ≤ o.acc q)
    (h : setupFT (runInitN o num_epochs).1 = some s2) :
    (runFTN o s2 fine_tune_epochs).1.fileBest =
      (runInitN o num_epochs).1.fileBest ∧
    ((runFTN o s2 fine_tune_epochs).1.fileFT.isSome = true ↔
      ∃ i, i < fine_tune_epochs ∧
        ∀ e, e < num_epochs → accAt o e < ftAccAt o s2.params i) := by
  cases hf : (runInitN o num_epochs).1.fileBest with
  | none => simp [setupFT, hf] at h
  | some p =>
    simp only [setupFT, hf, Option.some.injEq] at h
    subst h
    have hB : (runInitN o num_epochs).1.best_acc =
        bestAfter (accAt o) 0 num_epochs := by
      rw [runInitN_state]
    constructor
    · rw [runFTN_state]
    · rw [runFTN_state]
      have hiff := fileAfter_isSome (ftAccAt o p)
        (fun e => ftParamsAt o p (e + 1)) (runInitN o num_epochs).1.best_acc
        fine_tune_epochs
      refine Iff.trans hiff ?_
      constructor
      · rintro ⟨i, hi, hlt⟩
        refine ⟨i, hi, fun e he2 => ?_⟩
        calc accAt o e ≤ bestAfter (accAt o) 0 num_epochs :=
              acc_le_bestAfter (accAt o) 0 num_epochs e he2
          _ = (runInitN o num_epochs).1.best_acc := hB.symm
          _ < ftAccAt o p i := hlt
      · rintro ⟨i, hi, hall⟩
        refine ⟨i, hi, ?_⟩
        rw [hB]
        have h00 : (0 : ℚ) ≤ accAt o 0 := hpos _
        have h01 : accAt o 0 < ftAccAt o p i := hall 0 (by decide)
        exact bestAfter_lt (accAt o) 0 (ftAccAt o p i) (by linarith)
          num_epochs (fun e he2 => hall e he2)

/-- Witness for C10 on the concrete run: fine-tuning leaves the initial
checkpoint file unchanged. -/
theorem finetune_checkpoint_file_witness :
    (runFTN demoOracle demoSt2 fine_tune_epochs).1.fileBest =
      (runInitN demoOracle num_epochs).1.fileBest :=
  (finetune_checkpoint_file demoOracle demoSt2
    (fun q => Nat.cast_nonneg q) demo_setupFT).1

end ResNet152
